import Mathlib

/-!
# Verification of the Kindle clippings parser and book aggregator

A shallow embedding of `kindle_clipping_html_formatter.py`: the block
splitter (`str.split` on the fixed separator), the clipping parser
(`Highlight.parse_highlight`, `Highlight.get_type_and_location`,
`Highlight.tidy_date`), the title normalizer (`Book.tidy_title`), the
content hasher (`Highlight.to_hash`, SHA-1 of the UTF-8 content bytes),
and the aggregation loop of `process`.

Python strings are modelled as `String` / `List Char`; functions that can
raise (`list[i]`, `datetime.strptime`) return `Except PyErr` / `Option`
values so that the exception behaviour of the source is explicit.
-/

/-- Python `str.isspace`-style whitespace, as matched by `\s` and
`str.strip()` (ASCII fragment). -/
def pyIsSpace (c : Char) : Bool :=
  c = ' ' || c = '\t' || c = '\n' || c = '\r' || c = '\x0b' || c = '\x0c'

/-- Characters kept by the first substitution in `Book.tidy_title`:
the class `[a-zA-Z\d\s;,_\-.()'\"]`. -/
def isAllowedChar (c : Char) : Bool :=
  c.isAlphanum || pyIsSpace c ||
    c = ';' || c = ',' || c = '_' || c = '-' || c = '.' ||
    c = '(' || c = ')' || c = '\'' || c = '"'

/-- Regex word characters (`\w` over ASCII): the complement is `\W`,
trimmed from both ends by the second substitution in `Book.tidy_title`. -/
def isWordChar (c : Char) : Bool :=
  c.isAlphanum || c = '_'

/-- Drop the leading and trailing runs of characters satisfying `q`
(used both for `str.strip()` and for the `^\W+|\W+$` substitution). -/
def trimBy (q : Char → Bool) (l : List Char) : List Char :=
  ((l.dropWhile q).reverse.dropWhile q).reverse

/-- Python `str.strip()` on a character list. -/
def pyStrip (l : List Char) : List Char :=
  trimBy pyIsSpace l

/-- Python `str.strip()` on a `String`. -/
def pyStripS (s : String) : String :=
  ⟨pyStrip s.data⟩

/-- `Book.tidy_title`: delete every character outside the allowed class,
then trim non-word characters from both ends. -/
def tidy_title (s : String) : String :=
  ⟨trimBy (fun c => !isWordChar c) (s.data.filter isAllowedChar)⟩

/-- Fuel-driven core of Python `str.split(sep)` for a non-empty `sep`:
scan left to right, emitting a block at each non-overlapping occurrence
of the separator.  `fuel ≥ l.length` makes the fuel inexhaustible. -/
def pySplitF (sep : List Char) : List Char → Nat → List (List Char)
  | [], _ => [[]]
  | l, 0 => [l]
  | c :: rest, fuel + 1 =>
    if sep.isPrefixOf (c :: rest) && !sep.isEmpty then
      [] :: pySplitF sep ((c :: rest).drop sep.length) fuel
    else
      match pySplitF sep rest fuel with
      | [] => [[c]]
      | b :: bs => (c :: b) :: bs

/-- Python `str.split(sep)` (non-empty separator) on character lists. -/
def pySplit (sep l : List Char) : List (List Char) :=
  pySplitF sep l l.length

/-- Number of (non-overlapping, left-to-right) occurrences of `sep`,
with the same scan structure as `pySplitF`. -/
def countOccF (sep : List Char) : List Char → Nat → Nat
  | [], _ => 0
  | _, 0 => 0
  | c :: rest, fuel + 1 =>
    if sep.isPrefixOf (c :: rest) && !sep.isEmpty then
      countOccF sep ((c :: rest).drop sep.length) fuel + 1
    else
      countOccF sep rest fuel

/-- Number of occurrences of `sep` in `l` (Python `str.count` for the
separators used here). -/
def countOcc (sep l : List Char) : Nat :=
  countOccF sep l l.length

/-- Python `str.replace(old, new)` for a non-empty `old`:
`new.join(s.split(old))`. -/
def pyReplace (old new l : List Char) : List Char :=
  List.intercalate new (pySplit old l)

/-- The fixed block separator of the clippings file. -/
def HIGHLIGHT_SEPARATOR : String := "=========="

/-- Attempt of the regex `\(([^)]*)\)[^(]*$` to complete a match that
began at a `(` whose remainder is `rest`: the group runs to the first
`)`; the match succeeds only if no `(` follows that `)`. -/
def matchParenTail (rest : List Char) : Option (List Char) :=
  match rest.dropWhile (fun ch => ch != ')') with
  | [] => none
  | _ :: tl =>
    if tl.contains '(' then none
    else some (rest.takeWhile (fun ch => ch != ')'))

/-- `re.search(r"\(([^)]*)\)[^(]*$", line)`: the leftmost `(` from which
the pattern matches to end of line.  Returns (text before the match,
group 1) — i.e. (raw title part, author). -/
def findAuthor : List Char → Option (List Char × List Char)
  | [] => none
  | c :: rest =>
    if c = '(' then
      match matchParenTail rest with
      | some g => some ([], g)
      | none => (findAuthor rest).map (fun pg => (c :: pg.1, pg.2))
    else
      (findAuthor rest).map (fun pg => (c :: pg.1, pg.2))

/-- Case-insensitive literal name match (the `_strptime` regex is compiled
with `IGNORECASE`); returns the remaining input. -/
def stripNameCI (name l : List Char) : Option (List Char) :=
  if (l.take name.length).map Char.toLower = name.map Char.toLower then
    some (l.drop name.length)
  else none

/-- First name of the list matching a prefix of `l` (case-insensitive),
with its 0-based index.  The name sets used below are prefix-free, so
first-match equals the regex alternation. -/
def matchFirstCI (names : List (List Char)) (l : List Char) : Option (Nat × List Char) :=
  match names with
  | [] => none
  | n :: ns =>
    match stripNameCI n l with
    | some rest => some (0, rest)
    | none => (matchFirstCI ns l).map (fun ir => (ir.1 + 1, ir.2))

def weekdayNames : List (List Char) :=
  ["Monday", "Tuesday", "Wednesday", "Thursday", "Friday", "Saturday", "Sunday"].map
    String.data

def monthNames : List (List Char) :=
  ["January", "February", "March", "April", "May", "June",
   "July", "August", "September", "October", "November", "December"].map String.data

def ampmNames : List (List Char) := ["AM", "PM"].map String.data

def digitVal (c : Char) : Nat := c.toNat - 48

/-- One- or two-digit numeric field of `_strptime` (e.g. `%d` is
`3[01]|[12]\d|0[1-9]|[1-9]`): prefer a two-digit match whose value is
accepted by `two`, else a single digit accepted by `one`.  Greedy, no
backtracking into the shorter alternative (never needed here). -/
def parseNum2or1 (two one : Nat → Bool) (l : List Char) : Option (Nat × List Char) :=
  match l with
  | c1 :: c2 :: rest =>
    if c1.isDigit && c2.isDigit && two (10 * digitVal c1 + digitVal c2) then
      some (10 * digitVal c1 + digitVal c2, rest)
    else if c1.isDigit && one (digitVal c1) then
      some (digitVal c1, c2 :: rest)
    else none
  | [c1] =>
    if c1.isDigit && one (digitVal c1) then some (digitVal c1, []) else none
  | [] => none

/-- `%Y`: exactly four digits. -/
def parseYear4 (l : List Char) : Option (Nat × List Char) :=
  match l with
  | c1 :: c2 :: c3 :: c4 :: rest =>
    if c1.isDigit && c2.isDigit && c3.isDigit && c4.isDigit then
      some (digitVal c1 * 1000 + digitVal c2 * 100 + digitVal c3 * 10 + digitVal c4, rest)
    else none
  | _ => none

/-- A literal character of the format string. -/
def litChar (c : Char) (l : List Char) : Option (List Char) :=
  match l with
  | x :: rest => if x = c then some rest else none
  | [] => none

/-- A whitespace character in the format string matches `\s+`. -/
def skipWs1 (l : List Char) : Option (List Char) :=
  match l with
  | c :: rest => if pyIsSpace c then some (rest.dropWhile pyIsSpace) else none
  | [] => none

def isLeapYear (y : Nat) : Bool :=
  y % 4 = 0 && (y % 100 != 0 || y % 400 = 0)

def daysInMonth (y m : Nat) : Nat :=
  if m = 2 then (if isLeapYear y then 29 else 28)
  else if m = 4 || m = 6 || m = 9 || m = 11 then 30
  else 31

/-- Format fragment `'%A, '`: weekday name, comma, whitespace. -/
def parseWeekdayPart (l0 : List Char) : Option (List Char) := do
  let (_, l) ← matchFirstCI weekdayNames l0
  let l ← litChar ',' l
  skipWs1 l

/-- Format fragment `'%B %d, '`: month name, whitespace, day-of-month
(`3[01]|[12]\d|0[1-9]|[1-9]`), comma, whitespace.  Month is 1-based. -/
def parseMonthDayPart (l0 : List Char) : Option (Nat × Nat × List Char) := do
  let (mIdx, l) ← matchFirstCI monthNames l0
  let l ← skipWs1 l
  let (d, l) ← parseNum2or1 (fun v => 1 ≤ v && v ≤ 31) (fun v => 1 ≤ v && v ≤ 9) l
  let l ← litChar ',' l
  let l ← skipWs1 l
  pure (mIdx + 1, d, l)

/-- Format fragment `'%H:%M:%S'`. -/
def parseTimePart (l0 : List Char) : Option (Nat × Nat × Nat × List Char) := do
  let (hh, l) ← parseNum2or1 (fun v => v ≤ 23) (fun _ => true) l0
  let l ← litChar ':' l
  let (mi, l) ← parseNum2or1 (fun v => v ≤ 59) (fun _ => true) l
  let l ← litChar ':' l
  let (ss, l) ← parseNum2or1 (fun v => v ≤ 61) (fun _ => true) l
  pure (hh, mi, ss, l)

/-- Format fragment `' %p'` followed by end of input (`strptime` raises
on unconverted data). -/
def parseAmPmEnd (l0 : List Char) : Option Unit := do
  let l ← skipWs1 l0
  let (_, l) ← matchFirstCI ampmNames l
  guard l.isEmpty

/-- `datetime.strptime(s, '%A, %B %d, %Y %H:%M:%S %p')`, returning
`(year, month, day, hour, minute, second)`, or `none` for the
`ValueError` raised on a non-matching string or an invalid date.
Because the format uses `%H`, CPython parses the trailing `%p` marker
but ignores it: `10:25:36 PM` yields hour 10 (AM/PM affects the hour
only with `%I`).  The final guard is the `datetime` constructor's
validation (year ≥ 1, day within the month, second ≤ 59). -/
def strptimeVerbose (l0 : List Char) : Option (Nat × Nat × Nat × Nat × Nat × Nat) := do
  let l ← parseWeekdayPart l0
  let (m, d, l) ← parseMonthDayPart l
  let (y, l) ← parseYear4 l
  let l ← skipWs1 l
  let (hh, mi, ss, l) ← parseTimePart l
  let _ ← parseAmPmEnd l
  guard (1 ≤ y ∧ d ≤ daysInMonth y m ∧ ss ≤ 59)
  pure (y, m, d, hh, mi, ss)

/-- Two-digit zero-padded decimal field of `strftime`. -/
def pad2 (n : Nat) : List Char :=
  [Char.ofNat (48 + n / 10 % 10), Char.ofNat (48 + n % 10)]

/-- `strftime('%d/%m/%y %H:%M:%S')` (`OUTPUT_DATE_FORMAT`). -/
def strftimeOut (y m d hh mi ss : Nat) : String :=
  ⟨pad2 d ++ '/' :: pad2 m ++ '/' :: pad2 (y % 100) ++
    ' ' :: pad2 hh ++ ':' :: pad2 mi ++ ':' :: pad2 ss⟩

/-- `Highlight.tidy_date`: remove `'Added on '`, parse the verbose date,
reformat; `none` models the uncaught `ValueError` of `strptime`. -/
def tidy_date (raw : String) : Option String :=
  let ds := pyReplace "Added on ".data [] raw.data
  (strptimeVerbose ds).map fun r =>
    strftimeOut r.1 r.2.1 r.2.2.1 r.2.2.2.1 r.2.2.2.2.1 r.2.2.2.2.2

/-- Python exceptions that the parsing code can raise and does not catch. -/
inductive PyErr
  | indexError
  | valueError
deriving DecidableEq

/-- A fully populated clipping: the attributes of `Highlight`. -/
structure Clipping where
  title : String
  author : String
  highlight_type : String
  main_loc : String
  date : String
  content : String
deriving DecidableEq

/-- Result of `Highlight.parse_highlight`: a full tuple, the `empty_set`
tuple of `None`s, or an uncaught exception escaping the call. -/
inductive PResult
  | ok (c : Clipping)
  | noneTuple
  | exn (e : PyErr)
deriving DecidableEq

/-- `Highlight.get_type_and_location`: strip the `'- Your '` prefix,
split on `' on '` (taking elements 0 and 1 — an `IndexError` when the
separator is absent), and within the remainder prefer the segment after
`' | '` when one exists. -/
def get_type_and_location (loc_str : String) : Except PyErr (String × String) :=
  let l := pyStrip (pyReplace "- Your ".data [] loc_str.data)
  match pySplit " on ".data l with
  | t0 :: p2 :: _ =>
    let pl := pySplit " | ".data p2
    let loc := if pl.length = 1 then pl.headD [] else pl[1]?.getD []
    .ok (⟨pyStrip t0⟩, ⟨pyStrip loc⟩)
  | _ => .error .indexError

/-- Lines 181–196 of the source: split the details line on
`' | Added on '`; `str.split` always returns a non-empty list, so the
`else` guard in the source is dead and element 1 is taken directly —
an `IndexError` when the separator is absent.  The date is then tidied;
a malformed date is an uncaught `ValueError` from `strptime`. -/
def parseDetails (l1 : List Char) : Except PyErr (String × String × String) :=
  let hds := pySplit " | Added on ".data l1
  match get_type_and_location ⟨hds.headD []⟩ with
  | .error e => .error e
  | .ok tl =>
    match hds[1]? with
    | none => .error .indexError
    | some dr =>
      match tidy_date ⟨dr⟩ with
      | none => .error .valueError
      | some date => .ok (tl.1, tl.2, date)

/-- `Highlight.parse_highlight`.  Note the source checks `len < 5` on the
raw line split *before* removing a leading empty line, and returns the
all-`None` `empty_set` on a short block or a missing author
parenthetical. -/
def parse_highlight (raw : String) : PResult :=
  let split0 := pySplit ['\n'] raw.data
  if split0.length < 5 then .noneTuple
  else
    let split1 := match split0 with
      | [] :: rest => rest
      | l => l
    match split1 with
    | l0 :: l1 :: _ =>
      match findAuthor l0 with
      | none => .noneTuple
      | some pg =>
        match parseDetails l1 with
        | .error e => .exn e
        | .ok tld =>
          let content := List.intercalate ['\n'] ((split1.drop 3).dropLast)
          .ok { title := pyStripS (tidy_title ⟨pg.1⟩),
                author := pyStripS ⟨pg.2⟩,
                highlight_type := pyStripS tld.1,
                main_loc := pyStripS tld.2.1,
                date := tld.2.2,
                content := pyStripS ⟨content⟩ }
    | _ => .noneTuple

/-! ## Content hashing: `Highlight.to_hash` is
`hashlib.sha1(content.encode('utf-8')).hexdigest()`. -/

/-- UTF-8 encoding of one scalar value (Python `str.encode('utf-8')`). -/
def utf8Char (c : Char) : List Nat :=
  let n := c.toNat
  if n < 128 then [n]
  else if n < 2048 then [192 + n / 64, 128 + n % 64]
  else if n < 65536 then [224 + n / 4096, 128 + n / 64 % 64, 128 + n % 64]
  else [240 + n / 262144, 128 + n / 4096 % 64, 128 + n / 64 % 64, 128 + n % 64]

/-- UTF-8 bytes of a string. -/
def utf8Bytes (s : String) : List Nat :=
  (s.data.map utf8Char).flatten

/-- Truncate to a 32-bit word. -/
def w32 (n : Nat) : Nat := n % 4294967296

/-- Left rotation of a 32-bit word (`0 < k < 32`, `n < 2^32`). -/
def rotl (k n : Nat) : Nat := w32 (n * 2 ^ k + n / 2 ^ (32 - k))

/-- `k` bytes of `n`, big-endian. -/
def beBytes : Nat → Nat → List Nat
  | 0, _ => []
  | k + 1, n => (n / 2 ^ (8 * k)) % 256 :: beBytes k n

/-- SHA-1 padding: append `0x80`, zeros to 56 mod 64, and the 64-bit
big-endian bit length. -/
def sha1Pad (msg : List Nat) : List Nat :=
  msg ++ [128] ++ List.replicate ((119 - msg.length % 64) % 64) 0 ++ beBytes 8 (msg.length * 8)

/-- Big-endian 32-bit words from bytes. -/
def bytesToWords : List Nat → List Nat
  | b0 :: b1 :: b2 :: b3 :: rest => (((b0 * 256 + b1) * 256 + b2) * 256 + b3) :: bytesToWords rest
  | _ => []

/-- Extend the 16 message-schedule words by `k` further words. -/
def sha1Extend (w : List Nat) : Nat → List Nat
  | 0 => w
  | k + 1 =>
    let x := rotl 1 (w.getD (w.length - 3) 0 ^^^ w.getD (w.length - 8) 0 ^^^
      w.getD (w.length - 14) 0 ^^^ w.getD (w.length - 16) 0)
    sha1Extend (w ++ [x]) k

def sha1F (i b c d : Nat) : Nat :=
  if i < 20 then (b &&& c) ||| ((4294967295 - b) &&& d)
  else if i < 40 then b ^^^ c ^^^ d
  else if i < 60 then (b &&& c) ||| (b &&& d) ||| (c &&& d)
  else b ^^^ c ^^^ d

def sha1K (i : Nat) : Nat :=
  if i < 20 then 1518500249
  else if i < 40 then 1859775393
  else if i < 60 then 2400959708
  else 3395469782

/-- The 80 compression rounds, one per schedule word. -/
def sha1Rounds (i : Nat) (ws : List Nat) (st : Nat × Nat × Nat × Nat × Nat) :
    Nat × Nat × Nat × Nat × Nat :=
  match ws with
  | [] => st
  | w :: rest =>
    let tmp := w32 (rotl 5 st.1 + sha1F i st.2.1 st.2.2.1 st.2.2.2.1 + st.2.2.2.2 + sha1K i + w)
    sha1Rounds (i + 1) rest (tmp, st.1, rotl 30 st.2.1, st.2.2.1, st.2.2.2.1)

/-- One 64-byte chunk. -/
def sha1Chunk (h : Nat × Nat × Nat × Nat × Nat) (chunk : List Nat) :
    Nat × Nat × Nat × Nat × Nat :=
  let st := sha1Rounds 0 (sha1Extend (bytesToWords chunk) 64) h
  (w32 (h.1 + st.1), w32 (h.2.1 + st.2.1), w32 (h.2.2.1 + st.2.2.1),
    w32 (h.2.2.2.1 + st.2.2.2.1), w32 (h.2.2.2.2 + st.2.2.2.2))

/-- Split the padded message into 64-byte chunks (fuel-driven; the input
length is a multiple of 64). -/
def chunks64F : List Nat → Nat → List (List Nat)
  | [], _ => []
  | _, 0 => []
  | l, f + 1 => l.take 64 :: chunks64F (l.drop 64) f

def hexDigit (n : Nat) : Char :=
  Char.ofNat (if n < 10 then 48 + n else 87 + n)

/-- Lowercase hexadecimal of a 32-bit word, 8 digits. -/
def hex8 (n : Nat) : List Char :=
  (List.range 8).map (fun i => hexDigit (n / 2 ^ (4 * (7 - i)) % 16))

/-- `hashlib.sha1(bytes).hexdigest()`. -/
def sha1Hex (msg : List Nat) : String :=
  let padded := sha1Pad msg
  let h := (chunks64F padded padded.length).foldl sha1Chunk
    (1732584193, 4023233417, 2562383102, 271733878, 3285377520)
  ⟨hex8 h.1 ++ hex8 h.2.1 ++ hex8 h.2.2.1 ++ hex8 h.2.2.2.1 ++ hex8 h.2.2.2.2⟩

/-- `Highlight.to_hash`: SHA-1 hex digest of the UTF-8 bytes of the
clipping's `content` alone. -/
def to_hash (c : Clipping) : String :=
  sha1Hex (utf8Bytes c.content)

/-! ## Aggregation: the main loop of `process` -/

/-- A `Book`: normalized title, author of the first clipping, and the
highlights in insertion order. -/
structure Book where
  title : String
  author : String
  highlights : List Clipping
deriving DecidableEq

/-- `Book.add_highlight`: the object is always truthy, so it is always
appended. -/
def addHighlight (b : Book) (h : Clipping) : Book :=
  { b with highlights := b.highlights ++ [h] }

/-- The mutable state of a run: the `Book.book_titles` registry (a set,
modelled as a list used only through membership) and the `library`. -/
structure AggState where
  book_titles : List String
  library : List Book
deriving DecidableEq

/-- `process` resets `Book.book_titles` and starts from an empty library. -/
def initState : AggState := ⟨[], []⟩

/-- One iteration of the `for raw_str in highlights` loop:
`Highlight(raw_str)` (whose constructor lets parse exceptions escape),
then either create a `Book` — `Book.__init__` re-tidies the title and
registers it — or append the clipping to every book with its title. -/
def stepBlock (st : AggState) (raw : String) : Except PyErr AggState :=
  match parse_highlight raw with
  | .exn e => .error e
  | .noneTuple => .ok st
  | .ok h =>
    if h.title ∈ st.book_titles then
      .ok { st with
        library := st.library.map (fun b => if b.title = h.title then addHighlight b h else b) }
    else
      .ok { book_titles := st.book_titles ++ [tidy_title h.title],
            library := st.library ++ [⟨tidy_title h.title, h.author, [h]⟩] }

/-- The loop over all raw blocks, aborting at the first uncaught
exception. -/
def runBlocks (st : AggState) : List String → Except PyErr AggState
  | [] => .ok st
  | r :: rs =>
    match stepBlock st r with
    | .error e => .error e
    | .ok st' => runBlocks st' rs

/-- `file_contents.split(HIGHLIGHT_SEPARATOR)`. -/
def splitBlocks (contents : String) : List String :=
  (pySplit HIGHLIGHT_SEPARATOR.data contents.data).map (⟨·⟩)

/-- The parsing-and-aggregation phase of `process` on the file contents:
the library after the first loop, or the exception that aborted the run. -/
def process (contents : String) : Except PyErr (List Book) :=
  (runBlocks initState (splitBlocks contents)).map AggState.library

/-- The successfully parsed clippings of a run, in file-encounter order. -/
def okClippings (contents : String) : List Clipping :=
  (splitBlocks contents).filterMap (fun r =>
    match parse_highlight r with
    | .ok h => some h
    | _ => none)

/-- First-seen-order deduplication of a list of titles. -/
def firstSeen (l : List String) : List String :=
  l.foldl (fun acc t => if t ∈ acc then acc else acc ++ [t]) []

/-- The second loop of `process`: write each book whose title is truthy
(non-empty) and not yet in `processed_books`. -/
def processedBooksLoop : List Book → List String → List Book
  | [], _ => []
  | b :: bs, seen =>
    if b.title = "" then processedBooksLoop bs seen
    else if pyStripS b.title ∈ seen then processedBooksLoop bs seen
    else b :: processedBooksLoop bs (seen ++ [pyStripS b.title])

/-- The books `process` hands to the persistence sink. -/
def booksWritten (lib : List Book) : List Book :=
  processedBooksLoop lib []

/-- The `main_loc` field of a successful parse (a fixed default
otherwise); used to state location claims compactly. -/
def mainLocOf (r : PResult) : String :=
  match r with
  | .ok c => c.main_loc
  | _ => ""

instance {e a : Type} [DecidableEq e] [DecidableEq a] : DecidableEq (Except e a) := fun x y =>
  match x, y with
  | .error e1, .error e2 => decidable_of_iff (e1 = e2) (by simp)
  | .error _, .ok _ => isFalse (by simp)
  | .ok _, .error _ => isFalse (by simp)
  | .ok a1, .ok a2 => decidable_of_iff (a1 = a2) (by simp)

/-- The clippings contributed by one raw block: a singleton for a
successful parse, nothing otherwise. -/
def okList (r : PResult) : List Clipping :=
  match r with
  | .ok h => [h]
  | _ => []

/-- The ok-parsed clippings of a list of raw blocks, in order. -/
def okOf (blocks : List String) : List Clipping :=
  blocks.filterMap (fun r =>
    match parse_highlight r with
    | .ok h => some h
    | _ => none)

/-- The loop invariant of the aggregation pass of `process`, relating the
state to the ok-parsed clippings `clips` of the processed prefix:
the registry mirrors the library's titles; each book holds exactly the
clippings bearing its title, in encounter order; every seen clipping has
a book; titles are distinct and in first-seen order. -/
def Invariant (clips : List Clipping) (st : AggState) : Prop :=
  st.book_titles = st.library.map Book.title ∧
  (∀ b ∈ st.library, b.highlights = clips.filter (fun c => c.title = b.title)) ∧
  (∀ c ∈ clips, c.title ∈ st.library.map Book.title) ∧
  (st.library.map Book.title).Nodup ∧
  st.library.map Book.title =
    (clips.map Clipping.title).foldl (fun acc t => if t ∈ acc then acc else acc ++ [t]) []

/-! ## Concrete blocks and runs used in the claim theorems -/

/-- The well-formed example block of the specification (title line,
details line, blank line, content line, trailing blank line). -/
def c1block : String :=
  "The Great Book (Jane Author)\n- Your Highlight on Location 120-121 | Added on Wednesday, October 24, 2018 10:25:36 PM\n\nThis is the highlighted text.\n"

/-- A block whose details line lacks the literal `' | Added on '`. -/
def c2missing : String :=
  "The Great Book (Jane Author)\n- Your Highlight on Location 12, Added on Wednesday, October 24, 2018 10:25:36 PM\n\nText.\n"

/-- A block whose date string does not match the verbose format. -/
def c2baddate : String :=
  "The Great Book (Jane Author)\n- Your Highlight on Location 12 | Added on NotADate\n\nText.\n"

/-- A block with the page-and-location descriptor. -/
def c3block : String :=
  "Some Book (A. N. Author)\n- Your Note on page 57 | Location 866 | Added on Wednesday, October 24, 2018 10:25:36 PM\n\nNote text.\n"

/-- A block of five raw lines whose first line is empty: after the
parser drops the leading empty line only four lines remain. -/
def c4block : String :=
  "\nT (A)\n- Your Highlight on Location 1-2 | Added on Wednesday, October 24, 2018 10:25:36 PM\n\n"

/-- What `c4block` parses to. -/
def c4clip : Clipping :=
  ⟨"T", "A", "Highlight", "Location 1-2", "24/10/18 10:25:36", ""⟩

/-- A three-line block. -/
def c4short : String := "a\nb\nc"

/-- A three-block file: two blocks of one book (with inconsistently
punctuated titles) around a block of another book. -/
def c5contents : String :=
  "Book One (Alice)\n- Your Highlight on Location 10-11 | Added on Wednesday, October 24, 2018 10:25:36 PM\n\nAlpha.\n==========\nBook Two (Bob)\n- Your Note on page 5 | Location 20 | Added on Monday, January 1, 2018 1:02:03 AM\n\nBeta.\n==========\nBook One! (Alice)\n- Your Highlight on Location 30 | Added on Wednesday, October 24, 2018 10:25:36 PM\n\nGamma.\n==========\n"

def c5clip1 : Clipping :=
  ⟨"Book One", "Alice", "Highlight", "Location 10-11", "24/10/18 10:25:36", "Alpha."⟩

def c5clip2 : Clipping :=
  ⟨"Book Two", "Bob", "Note", "Location 20", "01/01/18 01:02:03", "Beta."⟩

def c5clip3 : Clipping :=
  ⟨"Book One", "Alice", "Highlight", "Location 30", "24/10/18 10:25:36", "Gamma."⟩

/-- The library `process` builds from `c5contents`. -/
def c5library : List Book :=
  [⟨"Book One", "Alice", [c5clip1, c5clip3]⟩, ⟨"Book Two", "Bob", [c5clip2]⟩]

/-- A single-block file whose title normalizes to the empty string. -/
def c6contents : String :=
  "??? (A)\n- Your Highlight on Location 1-2 | Added on Wednesday, October 24, 2018 10:25:36 PM\n\nHello.\n"

def c6clip : Clipping :=
  ⟨"", "A", "Highlight", "Location 1-2", "24/10/18 10:25:36", "Hello."⟩

/-- The library `process` builds from `c6contents`: one book whose
title is the empty string. -/
def c6library : List Book := [⟨"", "A", [c6clip]⟩]

/-- Two clippings with byte-identical content but different titles,
authors, kinds, locations and timestamps. -/
def hashClipA : Clipping :=
  ⟨"Title A", "X", "Highlight", "Location 1", "24/10/18 10:25:36", "Same content."⟩

def hashClipB : Clipping :=
  ⟨"Title B", "Y", "Note", "Location 2", "01/01/18 01:02:03", "Same content."⟩

/-- A bookmark block: five lines, valid author parenthetical,
`' | Added on '` present, but no `' on '` in the descriptor. -/
def c10block : String :=
  "Book X (Someone)\n- Your Bookmark at Location 77 | Added on Wednesday, October 24, 2018 10:25:36 PM\n\n\n"

/-! ## Lemmas about trimming and `tidy_title` -/

theorem trimBy_eq_rdropWhile (q : Char → Bool) (l : List Char) :
    trimBy q l = List.rdropWhile q (l.dropWhile q) := by
  simp [trimBy, List.rdropWhile]

theorem trimBy_subset (q : Char → Bool) (l : List Char) : trimBy q l ⊆ l := by
  rw [trimBy_eq_rdropWhile]
  intro a ha
  exact List.dropWhile_subset q ((List.rdropWhile_prefix q _).sublist.subset ha)

/-- A prefix of a list fixed by `dropWhile q1` is fixed by `dropWhile q2`
whenever `q2` implies `q1`. -/
theorem dropWhile_prefix_eq_self (q1 q2 : Char → Bool) (himp : ∀ c, q2 c = true → q1 c = true)
    {A T : List Char} (hAd : A.dropWhile q1 = A) (hpre : T <+: A) :
    T.dropWhile q2 = T := by
  cases T with
  | nil => simp
  | cons b T' =>
    rcases hpre with ⟨t, ht⟩
    have hq1 : q1 b = false := by
      cases hqb : q1 b
      · rfl
      · rw [← ht, List.cons_append, List.dropWhile_cons_of_pos hqb] at hAd
        have hlen := congrArg List.length hAd
        have hle : ((T' ++ t).dropWhile q1).length ≤ (T' ++ t).length :=
          (List.dropWhile_sublist q1).length_le
        simp only [List.length_cons, List.length_append] at hlen hle
        omega
    have hq2 : q2 b = false := by
      cases hq2c : q2 b
      · rfl
      · rw [himp b hq2c] at hq1
        exact absurd hq1 (by simp)
    exact List.dropWhile_cons_of_neg (by simp [hq2])

/-- Trimming with a weaker predicate after trimming with a stronger one
does nothing: the remaining ends already fail the stronger predicate. -/
theorem trimBy_trimBy (q1 q2 : Char → Bool) (himp : ∀ c, q2 c = true → q1 c = true)
    (l : List Char) : trimBy q2 (trimBy q1 l) = trimBy q1 l := by
  rw [trimBy_eq_rdropWhile q1]
  have h1 : (List.rdropWhile q1 (l.dropWhile q1)).dropWhile q2 =
      List.rdropWhile q1 (l.dropWhile q1) :=
    dropWhile_prefix_eq_self q1 q2 himp (List.dropWhile_idempotent q1 l)
      (List.rdropWhile_prefix q1 _)
  rw [trimBy_eq_rdropWhile q2, h1]
  exact List.rdropWhile_eq_self_iff.mpr
    (fun hl hq2 => List.rdropWhile_last_not q1 _ hl (himp _ hq2))

theorem trimBy_idem (q : Char → Bool) (l : List Char) :
    trimBy q (trimBy q l) = trimBy q l :=
  trimBy_trimBy q q (fun _ h => h) l

theorem space_not_word (c : Char) (h : pyIsSpace c = true) : (!isWordChar c) = true := by
  simp only [pyIsSpace, Bool.or_eq_true, decide_eq_true_eq] at h
  rcases h with ((((h | h) | h) | h) | h) | h <;> subst h <;> decide

theorem word_of_allowed_mem (l : List Char) (a : Char)
    (ha : a ∈ trimBy (fun c => !isWordChar c) (l.filter isAllowedChar)) :
    isAllowedChar a = true :=
  List.of_mem_filter (trimBy_subset _ _ ha)

theorem tidy_title_idem (s : String) : tidy_title (tidy_title s) = tidy_title s := by
  have hfil : (trimBy (fun c => !isWordChar c) (s.data.filter isAllowedChar)).filter
      isAllowedChar = trimBy (fun c => !isWordChar c) (s.data.filter isAllowedChar) :=
    List.filter_eq_self.mpr (fun a ha => word_of_allowed_mem s.data a ha)
  have h2 : trimBy (fun c => !isWordChar c)
      ((trimBy (fun c => !isWordChar c) (s.data.filter isAllowedChar)).filter isAllowedChar) =
      trimBy (fun c => !isWordChar c) (s.data.filter isAllowedChar) := by
    rw [hfil]
    exact trimBy_idem _ _
  exact congrArg String.mk h2

/-- `str.strip()` after `tidy_title` is the identity: the trimmed ends
are word characters, hence not whitespace. -/
theorem pyStripS_tidy (s : String) : pyStripS (tidy_title s) = tidy_title s :=
  congrArg String.mk
    (trimBy_trimBy (fun c => !isWordChar c) pyIsSpace
      (fun c hc => space_not_word c hc) (s.data.filter isAllowedChar))

/-! ## Lemmas about the splitter -/

theorem intercalate_single (sep x : List Char) : List.intercalate sep [x] = x := by
  simp [List.intercalate]

theorem intercalate_cons₂ (sep x y : List Char) (zs : List (List Char)) :
    List.intercalate sep (x :: y :: zs) = x ++ sep ++ List.intercalate sep (y :: zs) := by
  simp [List.intercalate, List.intersperse_cons₂]

theorem pySplitF_ne_nil (sep l : List Char) (fuel : Nat) : pySplitF sep l fuel ≠ [] := by
  match l, fuel with
  | [], _ => simp [pySplitF]
  | _ :: _, 0 => simp [pySplitF]
  | c :: rest, fuel + 1 =>
    rw [pySplitF]
    split
    · simp
    · split
      · simp
      · simp

/-- Joining the split with the separator reconstructs the input. -/
theorem pySplitF_join (sep : List Char) (hsep : sep ≠ []) :
    ∀ (fuel : Nat) (l : List Char), l.length ≤ fuel →
      List.intercalate sep (pySplitF sep l fuel) = l := by
  intro fuel
  induction fuel with
  | zero =>
    intro l hl
    have : l = [] := List.eq_nil_of_length_eq_zero (Nat.le_zero.mp hl)
    subst this
    simp [pySplitF, intercalate_single]
  | succ fuel ih =>
    intro l hl
    match l with
    | [] => simp [pySplitF, intercalate_single]
    | c :: rest =>
      rw [pySplitF]
      by_cases hp : (sep.isPrefixOf (c :: rest) && !sep.isEmpty) = true
      · rw [if_pos hp]
        have hpre : sep <+: c :: rest :=
          List.isPrefixOf_iff_prefix.mp (Bool.and_eq_true_iff.mp hp).1
        rcases hpre with ⟨t, ht⟩
        have hdrop : (c :: rest).drop sep.length = t := by
          rw [← ht]
          exact List.drop_left sep t
        have hslen : 1 ≤ sep.length := by
          cases sep
          · exact absurd rfl hsep
          · simp
        have hfuel : ((c :: rest).drop sep.length).length ≤ fuel := by
          rw [hdrop]
          have hlen := congrArg List.length ht
          simp only [List.length_append, List.length_cons] at hlen
          simp only [List.length_cons] at hl
          omega
        rcases hsp : pySplitF sep ((c :: rest).drop sep.length) fuel with _ | ⟨b, bs⟩
        · exact absurd hsp (pySplitF_ne_nil _ _ _)
        · have ihr := ih ((c :: rest).drop sep.length) hfuel
          rw [hsp] at ihr
          rw [intercalate_cons₂, List.nil_append, ihr, hdrop, ht]
      · rw [if_neg hp]
        have ihr := ih rest (by simp only [List.length_cons] at hl; omega)
        rcases hsp : pySplitF sep rest fuel with _ | ⟨b, bs⟩
        · exact absurd hsp (pySplitF_ne_nil _ _ _)
        · rw [hsp] at ihr
          cases bs with
          | nil =>
            rw [intercalate_single] at ihr ⊢
            rw [ihr]
          | cons b2 bs2 =>
            rw [intercalate_cons₂] at ihr ⊢
            rw [← ihr]
            simp [List.cons_append]

/-- The split has one more block than there are separator occurrences. -/
theorem pySplitF_length (sep : List Char) :
    ∀ (fuel : Nat) (l : List Char),
      (pySplitF sep l fuel).length = countOccF sep l fuel + 1 := by
  intro fuel
  induction fuel with
  | zero =>
    intro l
    match l with
    | [] => simp [pySplitF, countOccF]
    | _ :: _ => simp [pySplitF, countOccF]
  | succ fuel ih =>
    intro l
    match l with
    | [] => simp [pySplitF, countOccF]
    | c :: rest =>
      rw [pySplitF, countOccF]
      by_cases hp : (sep.isPrefixOf (c :: rest) && !sep.isEmpty) = true
      · rw [if_pos hp, if_pos hp]
        simp only [List.length_cons, ih]
      · rw [if_neg hp, if_neg hp]
        rcases hsp : pySplitF sep rest fuel with _ | ⟨b, bs⟩
        · exact absurd hsp (pySplitF_ne_nil _ _ _)
        · have := ih rest
          rw [hsp] at this
          simp only [List.length_cons] at this ⊢
          omega

theorem pySplit_join (sep : List Char) (hsep : sep ≠ []) (l : List Char) :
    List.intercalate sep (pySplit sep l) = l :=
  pySplitF_join sep hsep l.length l (Nat.le_refl _)

theorem pySplit_length (sep l : List Char) :
    (pySplit sep l).length = countOcc sep l + 1 :=
  pySplitF_length sep l.length l

/-! ## The title of a parsed clipping is normalization-invariant -/

theorem tidy_strip_tidy (x : String) :
    tidy_title (pyStripS (tidy_title x)) = pyStripS (tidy_title x) := by
  rw [pyStripS_tidy]
  exact tidy_title_idem x

/-- Every successfully parsed clipping carries an already-normalized
title: `Book.__init__`'s re-tidying is the identity on it. -/
theorem parse_ok_title (raw : String) (h : Clipping) (hp : parse_highlight raw = .ok h) :
    tidy_title h.title = h.title := by
  simp only [parse_highlight] at hp
  repeat' split at hp
  all_goals first
    | (injection hp with hh
       subst hh
       exact tidy_strip_tidy _)
    | exact PResult.noConfusion hp

/-! ## The aggregation invariant -/

theorem mapAdd_titles (lib : List Book) (h : Clipping) :
    (lib.map (fun b => if b.title = h.title then addHighlight b h else b)).map Book.title =
      lib.map Book.title := by
  rw [List.map_map]
  apply List.map_congr_left
  intro b _
  by_cases hb : b.title = h.title
  · simp [hb, addHighlight]
  · simp [hb]

theorem stepBlock_inv (st : AggState) (raw : String) (clips : List Clipping)
    (hInv : Invariant clips st) (st' : AggState)
    (hstep : stepBlock st raw = .ok st') :
    Invariant (clips ++ okList (parse_highlight raw)) st' := by
  obtain ⟨h1, h2, h3, h4, h5⟩ := hInv
  cases hr : parse_highlight raw with
  | exn e =>
    simp only [stepBlock, hr] at hstep
    exact Except.noConfusion hstep
  | noneTuple =>
    simp only [stepBlock, hr] at hstep
    injection hstep with hst
    subst hst
    simp only [okList, List.append_nil]
    exact ⟨h1, h2, h3, h4, h5⟩
  | ok h =>
    simp only [stepBlock, hr] at hstep
    have htt : tidy_title h.title = h.title := parse_ok_title raw h hr
    simp only [okList]
    by_cases hmem : h.title ∈ st.book_titles
    · rw [if_pos hmem] at hstep
      injection hstep with hst
      subst hst
      have hmemtitles : h.title ∈ st.library.map Book.title := h1 ▸ hmem
      refine ⟨?_, ?_, ?_, ?_, ?_⟩
      · rw [mapAdd_titles]
        exact h1
      · intro b' hb'
        rcases List.mem_map.mp hb' with ⟨b, hbmem, rfl⟩
        by_cases hb : b.title = h.title
        · simp only [if_pos hb, addHighlight, List.filter_append, ← h2 b hbmem]
          simp [hb.symm]
        · simp only [if_neg hb, List.filter_append, ← h2 b hbmem]
          have : h.title ≠ b.title := fun hc => hb hc.symm
          simp [this]
      · intro c hc
        rw [mapAdd_titles]
        rcases List.mem_append.mp hc with hcl | hch
        · exact h3 c hcl
        · rw [List.mem_singleton.mp hch]
          exact hmemtitles
      · rw [mapAdd_titles]
        exact h4
      · rw [mapAdd_titles, List.map_append, List.foldl_append, h5]
        have hX : h.title ∈ (clips.map Clipping.title).foldl
            (fun acc t => if t ∈ acc then acc else acc ++ [t]) [] := h5 ▸ hmemtitles
        simp [hX]
    · rw [if_neg hmem] at hstep
      injection hstep with hst
      subst hst
      have hnot : h.title ∉ st.library.map Book.title := h1 ▸ hmem
      refine ⟨?_, ?_, ?_, ?_, ?_⟩
      · simp only [List.map_append, List.map_cons, List.map_nil, htt]
        rw [h1]
      · intro b' hb'
        rcases List.mem_append.mp hb' with hbold | hbnew
        · have hbt : b'.title ≠ h.title := by
            intro hc
            exact hnot (hc ▸ List.mem_map_of_mem Book.title hbold)
          rw [List.filter_append, ← h2 b' hbold]
          have : h.title ≠ b'.title := fun hc => hbt hc.symm
          simp [this]
        · rw [List.mem_singleton.mp hbnew]
          simp only [htt, List.filter_append]
          have hfil : clips.filter (fun c => c.title = h.title) = [] := by
            apply List.filter_eq_nil_iff.mpr
            intro c hc
            simp only [decide_eq_true_eq]
            intro hct
            exact hnot (hct ▸ h3 c hc)
          rw [hfil]
          simp
      · intro c hc
        simp only [List.map_append, List.map_cons, List.map_nil, htt]
        rcases List.mem_append.mp hc with hcl | hch
        · exact List.mem_append_left _ (h3 c hcl)
        · rw [List.mem_singleton.mp hch]
          exact List.mem_append_right _ (List.mem_singleton.mpr rfl)
      · simp only [List.map_append, List.map_cons, List.map_nil, htt]
        rw [List.nodup_append]
        refine ⟨h4, List.nodup_singleton _, ?_⟩
        intro a ha hamem
        rw [List.mem_singleton.mp hamem] at ha
        exact hnot ha
      · simp only [List.map_append, List.map_cons, List.map_nil, htt,
          List.foldl_append, h5]
        have hX : h.title ∉ (clips.map Clipping.title).foldl
            (fun acc t => if t ∈ acc then acc else acc ++ [t]) [] := h5 ▸ hnot
        simp [hX]

theorem okOf_cons (r : String) (rs : List String) :
    okOf (r :: rs) = okList (parse_highlight r) ++ okOf rs := by
  simp only [okOf, List.filterMap_cons]
  cases parse_highlight r <;> simp [okList]

theorem runBlocks_inv (blocks : List String) :
    ∀ (st : AggState) (clips : List Clipping), Invariant clips st →
      ∀ st', runBlocks st blocks = .ok st' →
        Invariant (clips ++ okOf blocks) st' := by
  induction blocks with
  | nil =>
    intro st clips hInv st' hrun
    simp only [runBlocks] at hrun
    injection hrun with hst
    subst hst
    simpa [okOf] using hInv
  | cons r rs ih =>
    intro st clips hInv st' hrun
    simp only [runBlocks] at hrun
    cases hs : stepBlock st r with
    | error e =>
      rw [hs] at hrun
      exact Except.noConfusion hrun
    | ok st1 =>
      rw [hs] at hrun
      have h1 := stepBlock_inv st r clips hInv st1 hs
      have h2 := ih st1 (clips ++ okList (parse_highlight r)) h1 st' hrun
      rw [okOf_cons, ← List.append_assoc]
      exact h2

theorem initState_inv : Invariant [] initState := by
  refine ⟨rfl, ?_, ?_, ?_, rfl⟩
  · intro b hb
    exact absurd hb (List.not_mem_nil b)
  · intro c hc
    exact absurd hc (List.not_mem_nil c)
  · exact List.nodup_nil

/-- The conclusions of the aggregation invariant at the end of a
successful run of `process`. -/
theorem process_ok_properties (contents : String) (lib : List Book)
    (hp : process contents = .ok lib) :
    (∀ b ∈ lib, b.highlights = (okClippings contents).filter (fun c => c.title = b.title)) ∧
    (∀ c ∈ okClippings contents, c.title ∈ lib.map Book.title) ∧
    (lib.map Book.title).Nodup ∧
    lib.map Book.title = firstSeen ((okClippings contents).map Clipping.title) := by
  unfold process at hp
  cases hrun : runBlocks initState (splitBlocks contents) with
  | error e =>
    rw [hrun] at hp
    exact Except.noConfusion hp
  | ok st' =>
    rw [hrun] at hp
    injection hp with hlib
    have hinv := runBlocks_inv (splitBlocks contents) initState [] initState_inv st' hrun
    rw [List.nil_append] at hinv
    obtain ⟨_, h2, h3, h4, h5⟩ := hinv
    have hok : okOf (splitBlocks contents) = okClippings contents := rfl
    rw [hok] at h5
    subst hlib
    exact ⟨h2, h3, h4, h5⟩

/-! ## The write loop skips empty titles -/

theorem processedBooksLoop_title_ne (l : List Book) :
    ∀ (seen : List String) (b : Book), b ∈ processedBooksLoop l seen → b.title ≠ "" := by
  induction l with
  | nil =>
    intro seen b hb
    exact absurd hb (List.not_mem_nil b)
  | cons b0 bs ih =>
    intro seen b hb
    rw [processedBooksLoop] at hb
    by_cases h0 : b0.title = ""
    · rw [if_pos h0] at hb
      exact ih seen b hb
    · rw [if_neg h0] at hb
      by_cases hseen : pyStripS b0.title ∈ seen
      · rw [if_pos hseen] at hb
        exact ih seen b hb
      · rw [if_neg hseen] at hb
        rcases List.mem_cons.mp hb with rfl | hb'
        · exact h0
        · exact ih _ b hb'

/-! ## Claim theorems -/

set_option maxRecDepth 20000 in
/-- C1 (counterexample): parsing the specification's example block does
*not* yield the claimed record — the location keeps the `'Location '`
prefix and the timestamp keeps hour 10, because `get_type_and_location`
returns the raw post-pipe segment and `strptime` ignores `%p` when the
input format uses `%H`. -/
theorem claim_C1_counterexample :
    parse_highlight c1block ≠
      .ok ⟨"The Great Book", "Jane Author", "Highlight", "120-121",
        "24/10/18 22:25:36", "This is the highlighted text."⟩ := by
  decide

set_option maxRecDepth 20000 in
/-- C1 (amended): parsing the example block yields title `"The Great
Book"`, author `"Jane Author"`, kind `"Highlight"`, location
`"Location 120-121"` (the `'Location '` prefix is kept), timestamp
`"24/10/18 10:25:36"` (the AM/PM marker is parsed but ignored because
the input format uses `%H`), and the claimed content. -/
theorem claim_C1_amended_parse :
    parse_highlight c1block =
      .ok ⟨"The Great Book", "Jane Author", "Highlight", "Location 120-121",
        "24/10/18 10:25:36", "This is the highlighted text."⟩ := by
  decide

set_option maxRecDepth 20000 in
/-- C2 (code bug): a block whose second line lacks `' | Added on '`
crashes with an uncaught `IndexError` (the guarding `else` is dead
because `str.split` always returns a non-empty list), and a block whose
date is malformed crashes with an uncaught `ValueError` from
`strptime`; neither yields a typed failure. -/
theorem claim_C2_crashes :
    parse_highlight c2missing = .exn .indexError ∧
    parse_highlight c2baddate = .exn .valueError := by
  constructor
  · decide
  · decide

set_option maxRecDepth 20000 in
/-- C3 (counterexample): for the page-and-location block the parsed
location is not the bare range `"866"`. -/
theorem claim_C3_counterexample :
    mainLocOf (parse_highlight c3block) ≠ "866" := by
  decide

set_option maxRecDepth 20000 in
/-- C3 (amended): for the page-and-location block the segment after the
pipe wins (Location over page), but the stored location is the whole
segment `"Location 866"`, not the bare range. -/
theorem claim_C3_amended_parse :
    parse_highlight c3block =
      .ok ⟨"Some Book", "A. N. Author", "Note", "Location 866",
        "24/10/18 10:25:36", "Note text."⟩ := by
  decide

set_option maxRecDepth 20000 in
/-- C4 (counterexample): a block of five raw lines whose first line is
empty has only four lines left after the drop, yet parsing succeeds —
the length check runs *before* the empty first line is dropped, so the
claimed check order is wrong. -/
theorem claim_C4_counterexample :
    (pySplit ['\n'] c4block.data).headD [] = [] ∧
    (pySplit ['\n'] c4block.data).length = 5 ∧
    parse_highlight c4block = .ok c4clip := by
  refine ⟨by decide, by decide, by decide⟩

/-- C4 (amended): the parser requires at least 5 lines of the raw line
split, *before* an empty first line is dropped, and returns the
all-`None` tuple (the code's single untyped failure value) otherwise;
in particular every block with fewer than 5 lines — e.g. 3 — fails. -/
theorem claim_C4_amended (raw : String)
    (hshort : (pySplit ['\n'] raw.data).length < 5) :
    parse_highlight raw = .noneTuple := by
  simp [parse_highlight, hshort]

/-- Witness for C4: a three-line block satisfies the hypothesis and
fails as stated. -/
theorem claim_C4_witness :
    (pySplit ['\n'] c4short.data).length < 5 ∧ parse_highlight c4short = .noneTuple :=
  ⟨by decide, claim_C4_amended c4short (by decide)⟩

/-- C5: on every run that completes, the library has pairwise-distinct
titles, one book per distinct normalized title of the successfully
parsed clippings in first-seen order, and each book holds exactly the
clippings bearing its title in file-encounter order. -/
theorem claim_C5_aggregation (contents : String) (lib : List Book)
    (hp : process contents = .ok lib) :
    (lib.map Book.title).Nodup ∧
    lib.map Book.title = firstSeen ((okClippings contents).map Clipping.title) ∧
    ∀ b ∈ lib, b.highlights = (okClippings contents).filter (fun c => c.title = b.title) := by
  obtain ⟨h2, _, h4, h5⟩ := process_ok_properties contents lib hp
  exact ⟨h4, h5, h2⟩

set_option maxRecDepth 200000 in
/-- Witness for C5: the three-block run `c5contents` completes with
library `c5library`, which satisfies all three conclusions. -/
theorem claim_C5_witness :
    (c5library.map Book.title).Nodup ∧
    c5library.map Book.title = firstSeen ((okClippings c5contents).map Clipping.title) ∧
    ∀ b ∈ c5library, b.highlights =
      (okClippings c5contents).filter (fun c => c.title = b.title) :=
  claim_C5_aggregation c5contents c5library (by decide)

set_option maxRecDepth 100000 in
/-- C6 (counterexample): a successfully parsed clipping whose normalized
title is empty is *not* excluded from aggregation — the run over
`c6contents` creates a `Book` with empty title holding it (and the code
reports nothing to its caller). -/
theorem claim_C6_counterexample : process c6contents = .ok c6library := by
  decide

/-- C6 (amended): a successfully parsed clipping participates in
aggregation whatever its normalized title, empty included — some book
with exactly its title holds it; empty-titled books are only skipped
later, by the write loop, and no anomaly is reported anywhere. -/
theorem claim_C6_amended (contents : String) (lib : List Book)
    (hp : process contents = .ok lib) :
    (∀ h ∈ okClippings contents, ∃ b ∈ lib, b.title = h.title ∧ h ∈ b.highlights) ∧
    (∀ b ∈ booksWritten lib, b.title ≠ "") := by
  obtain ⟨h2, h3, _, _⟩ := process_ok_properties contents lib hp
  constructor
  · intro h hh
    rcases List.mem_map.mp (h3 h hh) with ⟨b, hb, hbt⟩
    refine ⟨b, hb, hbt, ?_⟩
    rw [h2 b hb]
    simp [List.mem_filter, hh, hbt]
  · intro b hb
    exact processedBooksLoop_title_ne lib [] b hb

set_option maxRecDepth 100000 in
/-- Witness for C6: instantiated at the empty-title run `c6contents`. -/
theorem claim_C6_witness :
    (∀ h ∈ okClippings c6contents, ∃ b ∈ c6library, b.title = h.title ∧ h ∈ b.highlights) ∧
    (∀ b ∈ booksWritten c6library, b.title ≠ "") :=
  claim_C6_amended c6contents c6library (by decide)

/-- C7: splitting any file contents on the separator yields exactly one
block more than the number of separator occurrences, and joining the
blocks with the separator reconstructs the contents exactly — nothing
is dropped, reordered or merged. -/
theorem claim_C7_splitter (contents : String) :
    (pySplit HIGHLIGHT_SEPARATOR.data contents.data).length =
      countOcc HIGHLIGHT_SEPARATOR.data contents.data + 1 ∧
    (⟨List.intercalate HIGHLIGHT_SEPARATOR.data
        (pySplit HIGHLIGHT_SEPARATOR.data contents.data)⟩ : String) = contents := by
  constructor
  · exact pySplit_length _ _
  · rw [pySplit_join HIGHLIGHT_SEPARATOR.data (by decide) contents.data]

/-- C8: `Book.tidy_title` is idempotent — normalizing an
already-normalized title returns it unchanged. -/
theorem claim_C8_tidy_title_idempotent (s : String) :
    tidy_title (tidy_title s) = tidy_title s :=
  tidy_title_idem s

/-- C9: the content hash is a function of the content alone — clippings
with byte-identical content hash identically, whatever their title,
author, kind or location. -/
theorem claim_C9_hash_content_only (c1 c2 : Clipping) (h : c1.content = c2.content) :
    to_hash c1 = to_hash c2 := by
  unfold to_hash
  rw [h]

/-- Witness for C9: two clippings differing in every field but content
hash identically. -/
theorem claim_C9_witness :
    hashClipA.content = hashClipB.content ∧ to_hash hashClipA = to_hash hashClipB :=
  ⟨rfl, claim_C9_hash_content_only hashClipA hashClipB rfl⟩

set_option maxRecDepth 20000 in
/-- C10: the bookmark block — five lines, valid author parenthetical,
`' | Added on '` present, no `' on '` in the descriptor — crashes with
an uncaught `IndexError` when `get_type_and_location` indexes element 1
of the `' on '` split, instead of returning any result. -/
theorem claim_C10_bookmark_crash :
    (pySplit ['\n'] c10block.data).length = 5 ∧
    parse_highlight c10block = .exn .indexError := by
  refine ⟨by decide, by decide⟩
